import Mathlib

/-!
Verification of the product-catalog core of a NestJS CRUD service.

The embedding translates, from the TypeScript source:
  - `ProductsService` (in-memory store, `applyFilters`, `applySorting`,
    `create`, `update`, `delete`, `findAll`, `findById`, `findByCategory`);
  - `ProductsController.findAll` (pagination of the filtered, sorted list)
    and `ProductsController.partialUpdateProduct` (price validation);
  - the query DTO's validation bounds.

Modelling choices:
  - JS numbers used for prices are modelled as rationals (`Rat`); the values
    appearing in the code are all exactly representable.
  - `Date` values are modelled by their `getTime()` millisecond timestamps
    (`Nat`), which is also what the sort comparator reduces them to.
  - JS string operations (`toLowerCase`, `includes`, `<` on strings) are
    modelled on `String` / `List Char` with character-wise lowercasing and
    lexicographic order, matching the code-unit semantics on the data involved.
  - `Array.prototype.sort` (stable since ES2019) with comparator `c` is
    modelled as `List.mergeSort` with the relation `fun a b => c a b ≤ 0`.
  - Mutation of the service's fields is modelled by explicit state passing
    (`ServiceState`); thrown Nest exceptions become `Except` errors paired
    with the (unchanged) state.
  - Response-envelope fields that are pure presentation (`timestamp`,
    `filters` echo, `updatedFields`, log lines) are not part of the model;
    `success`, `message`, `data` and the full `pagination` block are.
-/

namespace ProductCrud

/-- The character list `needle` is a leading segment of `hay`. -/
def charsLeads : List Char → List Char → Bool
  | [], _ => true
  | _ :: _, [] => false
  | a :: as, b :: bs => a == b && charsLeads as bs

/-- The character list `needle` occurs contiguously inside `hay`. -/
def charsWithin (needle : List Char) : List Char → Bool
  | [] => needle.isEmpty
  | b :: bs => charsLeads needle (b :: bs) || charsWithin needle bs

/-- JS `hay.includes(needle)`. -/
def jsIncludes (hay needle : String) : Bool :=
  charsWithin needle.data hay.data

/-- JS `s.toLowerCase()`: character-wise lowercasing. -/
def jsLower (s : String) : String :=
  ⟨s.data.map Char.toLower⟩

/-- The `Product` entity (`product.interface.ts`). `description` is optional
in the creation DTO, hence `Option`; dates carry their `getTime()` value. -/
structure Product where
  id : Nat
  name : String
  description : Option String
  price : Rat
  stock : Nat
  category : String
  isActive : Bool
  createdAt : Nat
  updatedAt : Nat
deriving Repr, DecidableEq, Inhabited

/-- Allowed `sortBy` values of the query DTO. -/
inductive SortBy
  | name
  | price
  | createdAt
  | stock
deriving Repr, DecidableEq

/-- Allowed `order` values of the query DTO. -/
inductive SortOrder
  | ASC
  | DESC
deriving Repr, DecidableEq

/-- `QueryProductDto`: every field is optional on the wire; `none` means the
parameter was absent and the code-side default applies. -/
structure QueryProductDto where
  page : Option Nat := none
  limit : Option Nat := none
  category : Option String := none
  minPrice : Option Rat := none
  maxPrice : Option Rat := none
  search : Option String := none
  sortBy : Option SortBy := none
  order : Option SortOrder := none
deriving Repr, DecidableEq

/-- The DTO validation bounds (class-validator decorators): `page ∈ [1,1000]`,
`limit ∈ [1,100]`, `minPrice ≥ 0`, `maxPrice ≥ 0`. Queries reaching the
controller have passed this validation. -/
def validQuery (q : QueryProductDto) : Bool :=
  (match q.page with
   | some p => decide (1 ≤ p ∧ p ≤ 1000)
   | none => true) &&
  (match q.limit with
   | some n => decide (1 ≤ n ∧ n ≤ 100)
   | none => true) &&
  (match q.minPrice with
   | some m => decide (0 ≤ m)
   | none => true) &&
  (match q.maxPrice with
   | some m => decide (0 ≤ m)
   | none => true)

/-- JS truthiness of an optional string parameter (`if (query.category)`):
present and non-empty. -/
def strTruthy : Option String → Bool
  | none => false
  | some s => !(s == "")

/-- Category filter step of `applyFilters`:
`products.filter(p => p.category.toLowerCase().includes(query.category.toLowerCase()))`,
guarded by `if (query.category)`. -/
def categoryStage (products : List Product) (category : Option String) : List Product :=
  if strTruthy category then
    products.filter fun p => jsIncludes (jsLower p.category) (jsLower (category.getD ""))
  else products

/-- `minPrice` filter step, guarded by `query.minPrice !== undefined`. -/
def minPriceStage (products : List Product) (minPrice : Option Rat) : List Product :=
  match minPrice with
  | some m => products.filter fun p => m ≤ p.price
  | none => products

/-- `maxPrice` filter step, guarded by `query.maxPrice !== undefined`. -/
def maxPriceStage (products : List Product) (maxPrice : Option Rat) : List Product :=
  match maxPrice with
  | some m => products.filter fun p => p.price ≤ m
  | none => products

/-- Search filter step: term is a substring of lower-cased name, description
or category; `p.description?.` makes a missing description never match. -/
def searchStage (products : List Product) (search : Option String) : List Product :=
  if strTruthy search then
    let searchLower := jsLower (search.getD "")
    products.filter fun p =>
      jsIncludes (jsLower p.name) searchLower ||
      (match p.description with
       | some d => jsIncludes (jsLower d) searchLower
       | none => false) ||
      jsIncludes (jsLower p.category) searchLower
  else products

/-- `ProductsService.applyFilters`: the four filter steps in source order. -/
def applyFilters (products : List Product) (query : QueryProductDto) : List Product :=
  searchStage
    (maxPriceStage
      (minPriceStage
        (categoryStage products query.category)
        query.minPrice)
      query.maxPrice)
    query.search

/-- `aValue < bValue` inside the sort comparator, after the code's
per-field preprocessing (dates to timestamps, strings lower-cased). -/
def keyLt (sb : SortBy) (a b : Product) : Bool :=
  match sb with
  | .name => decide ((jsLower a.name).data < (jsLower b.name).data)
  | .price => decide (a.price < b.price)
  | .createdAt => decide (a.createdAt < b.createdAt)
  | .stock => decide (a.stock < b.stock)

/-- The comparator of `applySorting`:
ASC is `aValue > bValue ? 1 : aValue < bValue ? -1 : 0`, DESC the mirror. -/
def jsCompare (sb : SortBy) (ord : SortOrder) (a b : Product) : Int :=
  match ord with
  | .ASC => if keyLt sb b a then 1 else if keyLt sb a b then -1 else 0
  | .DESC => if keyLt sb a b then 1 else if keyLt sb b a then -1 else 0

/-- `ProductsService.applySorting`: stable sort (`Array.prototype.sort`) with
`jsCompare`, defaults `sortBy = createdAt`, `order = DESC`. -/
def applySorting (products : List Product) (query : QueryProductDto) : List Product :=
  let sb := query.sortBy.getD .createdAt
  let ord := query.order.getD .DESC
  products.mergeSort fun a b => decide (jsCompare sb ord a b ≤ 0)

/-- The mutable fields of `ProductsService`: the record array and the
`nextId` counter. -/
structure ServiceState where
  nextId : Nat
  products : List Product
deriving Repr, DecidableEq

/-- First seeded record (`id: 1`, price 2499.99, created 2024-01-01). -/
def prod1 : Product :=
  { id := 1
    name := "MacBook Pro 16-inch"
    description := some "High-performance laptop with M2 Pro chip, perfect for professionals and creatives"
    price := { num := 249999, den := 100 }
    stock := 15
    category := "Electronics"
    isActive := true
    createdAt := 1704067200000
    updatedAt := 1704067200000 }

/-- Second seeded record (`id: 2`, price 999.99, created 2024-01-02). -/
def prod2 : Product :=
  { id := 2
    name := "iPhone 15 Pro"
    description := some "Latest iPhone with titanium design and advanced camera system"
    price := { num := 99999, den := 100 }
    stock := 25
    category := "Electronics"
    isActive := true
    createdAt := 1704153600000
    updatedAt := 1704153600000 }

/-- Third seeded record (`id: 3`, price 899.99, created 2024-01-03). -/
def prod3 : Product :=
  { id := 3
    name := "Samsung Galaxy S24"
    description := some "Android flagship with AI-powered features and stunning display"
    price := { num := 89999, den := 100 }
    stock := 0
    category := "Electronics"
    isActive := false
    createdAt := 1704240000000
    updatedAt := 1704240000000 }

/-- Fourth seeded record (`id: 4`, price 1299.99, created 2024-01-04). -/
def prod4 : Product :=
  { id := 4
    name := "Dell XPS 13"
    description := some "Ultra-portable laptop with premium build quality and long battery life"
    price := { num := 129999, den := 100 }
    stock := 8
    category := "Electronics"
    isActive := true
    createdAt := 1704326400000
    updatedAt := 1704326400000 }

/-- The seeded store: four products, `nextId = 5`. Timestamps are the
`getTime()` values of 2024-01-01 through 2024-01-04 (UTC midnights). -/
def initState : ServiceState :=
  { nextId := 5
    products := [prod1, prod2, prod3, prod4] }

/-- `ProductsService.findAll(query)`: copy of the array, filtered and sorted
(the controller always passes a query object). -/
def serviceFindAll (s : ServiceState) (query : QueryProductDto) : List Product :=
  applySorting (applyFilters s.products query) query

/-- Pagination metadata block of the list response. -/
structure Pagination where
  currentPage : Nat
  itemPerPage : Nat
  totalItems : Nat
  totalPages : Nat
  hasNextPage : Bool
  hasPreviousPage : Bool
deriving Repr, DecidableEq

/-- The list response (`PaginatedApiResponse<Product>`), minus the purely
presentational `filters` echo and `timestamp`. -/
structure PaginatedResponse where
  success : Bool
  message : String
  data : List Product
  pagination : Pagination
deriving Repr, DecidableEq

/-- `ProductsController.findAll`: defaults `page = 1`, `limit = 10`;
`totalPages = ceil(totalItems / limit)` (here in `Nat` arithmetic, equal to
`Math.ceil` for the validated `limit ≥ 1`); the page slice is
`allProducts.slice(startIndex, startIndex + limit)`. -/
def controllerFindAll (s : ServiceState) (query : QueryProductDto) : PaginatedResponse :=
  let page := query.page.getD 1
  let limit := query.limit.getD 10
  let allProducts := serviceFindAll s query
  let totalItems := allProducts.length
  let totalPages := (totalItems + limit - 1) / limit
  let currentPage := page
  let startIndex := (currentPage - 1) * limit
  let endIndex := startIndex + limit
  let paginatedProducts := (allProducts.drop startIndex).take (endIndex - startIndex)
  { success := true
    message := "Products retrieved successfully"
    data := paginatedProducts
    pagination :=
      { currentPage := currentPage
        itemPerPage := limit
        totalItems := totalItems
        totalPages := totalPages
        hasNextPage := decide (currentPage < totalPages)
        hasPreviousPage := decide (1 < currentPage) } }

/-- Errors thrown by the service/controller (`NotFoundException`,
`BadRequestException`), carrying their message. -/
inductive ApiError
  | notFound (msg : String)
  | badRequest (msg : String)
deriving Repr, DecidableEq

/-- `CreateProductData`: the creation body (validated `CreateProductDto`). -/
structure CreateProductData where
  name : String
  description : Option String
  price : Rat
  stock : Nat
  category : String
  isActive : Bool
deriving Repr, DecidableEq

/-- `UpdateProductData`: the PATCH body; every field optional (`PartialType`).
`none` means the field is absent from the body. -/
structure UpdateProductData where
  name : Option String := none
  description : Option String := none
  price : Option Rat := none
  stock : Option Nat := none
  category : Option String := none
  isActive : Option Bool := none
deriving Repr, DecidableEq

/-- `ProductsService.create`: assigns `nextId`, bumps the counter, sets both
timestamps to `now`, appends the record. -/
def serviceCreate (s : ServiceState) (d : CreateProductData) (now : Nat) :
    Product × ServiceState :=
  let newProduct : Product :=
    { id := s.nextId
      name := d.name
      description := d.description
      price := d.price
      stock := d.stock
      category := d.category
      isActive := d.isActive
      createdAt := now
      updatedAt := now }
  (newProduct, { nextId := s.nextId + 1, products := s.products ++ [newProduct] })

/-- The object-spread merge of `ProductsService.update`:
`{...existing, ...updateData, updatedAt: new Date()}`. Fields absent from the
body keep their value; `id`/`createdAt` are not part of the body. -/
def mergeUpdate (p : Product) (u : UpdateProductData) (now : Nat) : Product :=
  { id := p.id
    name := u.name.getD p.name
    description :=
      match u.description with
      | some d => some d
      | none => p.description
    price := u.price.getD p.price
    stock := u.stock.getD p.stock
    category := u.category.getD p.category
    isActive := u.isActive.getD p.isActive
    createdAt := p.createdAt
    updatedAt := now }

/-- `findIndex` + in-place replacement of `ProductsService.update`: replace
the first record with the given id, returning it and the new array. -/
def updateFirst (id : Nat) (u : UpdateProductData) (now : Nat) :
    List Product → Option (Product × List Product)
  | [] => none
  | p :: rest =>
    if p.id == id then
      let q := mergeUpdate p u now
      some (q, q :: rest)
    else
      match updateFirst id u now rest with
      | none => none
      | some (q, rest') => some (q, p :: rest')

/-- `ProductsService.update`: not-found when no record matches, otherwise the
merged record replaces the matched one. The state is returned alongside the
outcome; on error it is the unchanged input state. -/
def serviceUpdate (s : ServiceState) (id : Nat) (u : UpdateProductData) (now : Nat) :
    Except ApiError Product × ServiceState :=
  match updateFirst id u now s.products with
  | none => (.error (.notFound s!"Product with ID {id} not found"), s)
  | some (q, ps) => (.ok q, { s with products := ps })

/-- `findIndex` + `splice(index, 1)` of `ProductsService.delete`: remove the
first record with the given id, returning it and the remaining array. -/
def deleteFirst (id : Nat) : List Product → Option (Product × List Product)
  | [] => none
  | p :: rest =>
    if p.id == id then some (p, rest)
    else
      match deleteFirst id rest with
      | none => none
      | some (q, rest') => some (q, p :: rest')

/-- `ProductsService.delete`. -/
def serviceDelete (s : ServiceState) (id : Nat) :
    Except ApiError Product × ServiceState :=
  match deleteFirst id s.products with
  | none => (.error (.notFound s!"Product with ID {id} not found"), s)
  | some (q, ps) => (.ok q, { s with products := ps })

/-- The controller's PATCH price guard:
`updateProductDto.price !== undefined && updateProductDto.price <= 0`. -/
def priceInvalid (u : UpdateProductData) : Bool :=
  match u.price with
  | some v => decide (v ≤ 0)
  | none => false

/-- `ProductsController.partialUpdateProduct`: validates the provided price
before calling `ProductsService.update`. -/
def controllerPartialUpdate (s : ServiceState) (id : Nat) (u : UpdateProductData)
    (now : Nat) : Except ApiError Product × ServiceState :=
  if priceInvalid u then
    (.error (.badRequest "Price must be greater than 0"), s)
  else
    serviceUpdate s id u now

/-- A mutation request against the store. -/
inductive Op
  | create (d : CreateProductData) (now : Nat)
  | update (id : Nat) (u : UpdateProductData) (now : Nat)
  | delete (id : Nat)

/-- State after one mutation request (failed requests leave it unchanged). -/
def applyOp (s : ServiceState) : Op → ServiceState
  | .create d now => (serviceCreate s d now).2
  | .update id u now => (serviceUpdate s id u now).2
  | .delete id => (serviceDelete s id).2

/-- State after a sequence of mutation requests. -/
def runOps (s : ServiceState) : List Op → ServiceState
  | [] => s
  | op :: ops => runOps (applyOp s op) ops

/-- The ids handed out by the `create` requests of a run, in request order. -/
def createdIds (s : ServiceState) : List Op → List Nat
  | [] => []
  | .create d now :: ops =>
    (serviceCreate s d now).1.id :: createdIds (applyOp s (.create d now)) ops
  | .update id u now :: ops => createdIds (applyOp s (.update id u now)) ops
  | .delete id :: ops => createdIds (applyOp s (.delete id)) ops

/-!
Reference-semantics model for the read-aliasing claim. JS objects live on a
heap; the service's `products` array holds references. `findById` returns
`this.products.find(...)`, i.e. a reference to the stored object itself, and
`findAll` returns a fresh array (`[...this.products]`) whose entries are the
same references. A caller-side field assignment on a returned object is a
write through that reference.
-/

/-- Heap of product objects (a cell per object, addressed by index) plus the
store's array of references. -/
structure HeapState where
  cells : List Product
  storeRefs : List Nat
deriving Repr, DecidableEq

/-- Dereference (out-of-range reads give a junk default; the store only holds
valid references). -/
def derefD (h : HeapState) (r : Nat) : Product :=
  h.cells.getD r default

/-- The store's contents as seen by any operation that walks
`this.products`. -/
def storeView (h : HeapState) : List Product :=
  h.storeRefs.map (derefD h)

/-- Every store reference points into the heap. -/
def heapWF (h : HeapState) : Prop :=
  ∀ r ∈ h.storeRefs, r < h.cells.length

/-- `ProductsService.findById` under reference semantics: the reference of
the first stored object with the id (the object is NOT copied). -/
def heapFindById (h : HeapState) (id : Nat) : Option Nat :=
  h.storeRefs.find? fun r => (derefD h r).id == id

/-- A caller-side mutation of a returned object: write through the
reference. -/
def heapWrite (h : HeapState) (r : Nat) (p : Product) : HeapState :=
  { h with cells := h.cells.set r p }

/-- A heap holding the seeded store: one cell per seeded product, the store
referencing them in order. -/
def initHeap : HeapState :=
  { cells := initState.products
    storeRefs := [0, 1, 2, 3] }

/-- Non-strict key comparison: `a`'s key is at most `b`'s (the comparator's
"not greater" outcome in ASC direction). -/
def keyLe (sb : SortBy) (a b : Product) : Bool :=
  !(keyLt sb b a)

/-- Key equality: neither key is strictly below the other. -/
def keyEq (sb : SortBy) (a b : Product) : Bool :=
  keyLe sb a b && keyLe sb b a

/-- Store invariant: every stored id is below the counter, and stored ids
are pairwise distinct. -/
def goodState (s : ServiceState) : Prop :=
  (∀ p ∈ s.products, p.id < s.nextId) ∧ (s.products.map Product.id).Nodup

/-! ### Helper lemmas -/

/-- The empty character list occurs inside every list. -/
theorem charsWithin_nil : ∀ l : List Char, charsWithin [] l = true
  | [] => rfl
  | _ :: bs => by simp [charsWithin, charsLeads, charsWithin_nil bs]

/-- `updateFirst` replaces exactly the first record whose id matches. -/
theorem updateFirst_eq_of_split (id : Nat) (u : UpdateProductData) (now : Nat) :
    ∀ (l₁ : List Product) (p : Product) (l₂ : List Product),
      (∀ q ∈ l₁, q.id ≠ id) → p.id = id →
      updateFirst id u now (l₁ ++ p :: l₂) =
        some (mergeUpdate p u now, l₁ ++ mergeUpdate p u now :: l₂) := by
  intro l₁
  induction l₁ with
  | nil =>
    intro p l₂ _ hp
    simp [updateFirst, hp]
  | cons a t ih =>
    intro p l₂ hmiss hp
    have ha : (a.id == id) = false := by
      simp only [beq_eq_false_iff_ne, ne_eq]
      exact hmiss a (List.mem_cons_self a t)
    have ht : ∀ q ∈ t, q.id ≠ id := fun q hq => hmiss q (List.mem_cons_of_mem a hq)
    simp [updateFirst, ha, ih p l₂ ht hp]

/-! ### Claim theorems -/

/-- C5: with a category parameter present, the category filter of
`applyFilters` keeps exactly the records whose lower-cased category contains
the lower-cased query category as a substring; the remaining price/search
stages run on that filtered set. -/
theorem category_filter_is_lowercase_substring (ps : List Product)
    (q : QueryProductDto) (c : String) (hc : q.category = some c) :
    applyFilters ps q =
      searchStage
        (maxPriceStage
          (minPriceStage
            (ps.filter fun p => jsIncludes (jsLower p.category) (jsLower c))
            q.minPrice)
          q.maxPrice)
        q.search := by
  unfold applyFilters
  rw [hc]
  unfold categoryStage
  by_cases hce : c = ""
  · subst hce
    have hfilter : ps.filter (fun p => jsIncludes (jsLower p.category) (jsLower "")) = ps := by
      apply List.filter_eq_self.mpr
      intro a _
      show jsIncludes (jsLower a.category) (jsLower "") = true
      unfold jsIncludes jsLower
      exact charsWithin_nil _
    simp [strTruthy, hfilter]
  · have ht : strTruthy (some c) = true := by
      simp [strTruthy, hce]
    simp only [ht, if_pos, Option.getD_some]

/-- C5 witness: the theorem applied to the seeded store with category
`"electron"`. -/
theorem category_filter_is_lowercase_substring_witness :
    (({ category := some "electron" } : QueryProductDto).category = some "electron") ∧
    applyFilters initState.products { category := some "electron" } =
      searchStage
        (maxPriceStage
          (minPriceStage
            (initState.products.filter fun p =>
              jsIncludes (jsLower p.category) (jsLower "electron"))
            none)
          none)
        none :=
  ⟨rfl, category_filter_is_lowercase_substring initState.products
    { category := some "electron" } "electron" rfl⟩

/-- C6: a PATCH body with a provided `price ≤ 0` is rejected with the
validation error before the service is called; the store is returned exactly
unchanged. -/
theorem patch_rejects_nonpositive_price_without_mutation (s : ServiceState)
    (id : Nat) (u : UpdateProductData) (now : Nat) (v : Rat)
    (hv : u.price = some v) (hneg : v ≤ 0) :
    controllerPartialUpdate s id u now =
      (.error (.badRequest "Price must be greater than 0"), s) := by
  unfold controllerPartialUpdate priceInvalid
  rw [hv]
  simp [hneg]

/-- C6 witness: PATCH on the seeded store with `price = 0`. -/
theorem patch_rejects_nonpositive_price_without_mutation_witness :
    (({ price := some 0 } : UpdateProductData).price = some 0) ∧ ((0 : Rat) ≤ 0) ∧
    controllerPartialUpdate initState 1 { price := some 0 } 1704412800000 =
      (.error (.badRequest "Price must be greater than 0"), initState) :=
  ⟨rfl, le_refl 0,
    patch_rejects_nonpositive_price_without_mutation initState 1
      { price := some 0 } 1704412800000 0 rfl (le_refl 0)⟩

/-- C10: even when the id is absent from the store, a PATCH body with a
provided `price ≤ 0` fails with the validation error, never the not-found
error: the price guard runs before the existence lookup. -/
theorem patch_price_guard_runs_before_lookup (s : ServiceState) (id : Nat)
    (u : UpdateProductData) (now : Nat) (v : Rat)
    (habsent : ∀ p ∈ s.products, p.id ≠ id)
    (hv : u.price = some v) (hneg : v ≤ 0) :
    (controllerPartialUpdate s id u now).1 =
        .error (.badRequest "Price must be greater than 0") ∧
      ∀ msg, (controllerPartialUpdate s id u now).1 ≠ .error (.notFound msg) := by
  have hguard : controllerPartialUpdate s id u now =
      (.error (.badRequest "Price must be greater than 0"), s) := by
    unfold controllerPartialUpdate priceInvalid
    rw [hv]
    simp [hneg]
  refine ⟨by rw [hguard], ?_⟩
  intro msg
  rw [hguard]
  simp

/-- C10 witness: id 99 is absent from the seeded store and `price = -1` is
provided. -/
theorem patch_price_guard_runs_before_lookup_witness :
    (∀ p ∈ initState.products, p.id ≠ 99) ∧
    ((controllerPartialUpdate initState 99 { price := some (-1) } 0).1 =
        .error (.badRequest "Price must be greater than 0") ∧
      ∀ msg, (controllerPartialUpdate initState 99 { price := some (-1) } 0).1 ≠
        .error (.notFound msg)) :=
  ⟨by decide,
    patch_price_guard_runs_before_lookup initState 99 { price := some (-1) } 0 (-1)
      (by decide) rfl (by norm_num)⟩

/-- C7: updating the (first) record with a matching id changes only the
fields provided in the body: `id` and `createdAt` are always kept, every
absent field keeps its value, `updatedAt` becomes `now` (≥ the previous value
whenever the clock has not gone backwards), and no other record of the store
is touched. -/
theorem partial_update_frames_unnamed_fields (s : ServiceState) (id : Nat)
    (u : UpdateProductData) (now : Nat) (l₁ l₂ : List Product) (p : Product)
    (hsplit : s.products = l₁ ++ p :: l₂)
    (hfirst : ∀ q ∈ l₁, q.id ≠ id) (hp : p.id = id)
    (hclock : p.updatedAt ≤ now) :
    ∃ r : Product,
      (serviceUpdate s id u now).1 = .ok r ∧
      (serviceUpdate s id u now).2.products = l₁ ++ r :: l₂ ∧
      r.id = p.id ∧ r.createdAt = p.createdAt ∧
      (u.name = none → r.name = p.name) ∧
      (u.description = none → r.description = p.description) ∧
      (u.price = none → r.price = p.price) ∧
      (u.stock = none → r.stock = p.stock) ∧
      (u.category = none → r.category = p.category) ∧
      (u.isActive = none → r.isActive = p.isActive) ∧
      r.updatedAt = now ∧ p.updatedAt ≤ r.updatedAt := by
  refine ⟨mergeUpdate p u now, ?_, ?_, rfl, rfl, ?_, ?_, ?_, ?_, ?_, ?_, rfl, hclock⟩
  · unfold serviceUpdate
    rw [hsplit, updateFirst_eq_of_split id u now l₁ p l₂ hfirst hp]
  · unfold serviceUpdate
    rw [hsplit, updateFirst_eq_of_split id u now l₁ p l₂ hfirst hp]
  · intro h; simp [mergeUpdate, h]
  · intro h; simp [mergeUpdate, h]
  · intro h; simp [mergeUpdate, h]
  · intro h; simp [mergeUpdate, h]
  · intro h; simp [mergeUpdate, h]
  · intro h; simp [mergeUpdate, h]

/-- C7 witness: `update(2, {price: 50})` on the seeded store. -/
theorem partial_update_frames_unnamed_fields_witness :
    (initState.products = [prod1] ++ prod2 :: [prod3, prod4]) ∧
    (∃ r : Product,
      (serviceUpdate initState 2 { price := some 50 } 1704412800000).1 = .ok r ∧
      (serviceUpdate initState 2 { price := some 50 } 1704412800000).2.products =
        [prod1] ++ r :: [prod3, prod4] ∧
      r.id = prod2.id ∧ r.createdAt = prod2.createdAt ∧
      (({ price := some 50 } : UpdateProductData).name = none → r.name = prod2.name) ∧
      (({ price := some 50 } : UpdateProductData).description = none →
        r.description = prod2.description) ∧
      (({ price := some 50 } : UpdateProductData).price = none → r.price = prod2.price) ∧
      (({ price := some 50 } : UpdateProductData).stock = none → r.stock = prod2.stock) ∧
      (({ price := some 50 } : UpdateProductData).category = none →
        r.category = prod2.category) ∧
      (({ price := some 50 } : UpdateProductData).isActive = none →
        r.isActive = prod2.isActive) ∧
      r.updatedAt = 1704412800000 ∧
      prod2.updatedAt ≤ r.updatedAt) :=
  ⟨rfl,
    partial_update_frames_unnamed_fields initState 2 { price := some 50 }
      1704412800000 [prod1] [prod3, prod4] prod2
      rfl (by decide) rfl (by decide)⟩

/-- The effective `limit` (default 10) of a validated query is at least 1. -/
theorem one_le_effLimit (q : QueryProductDto) (hq : validQuery q = true) :
    1 ≤ q.limit.getD 10 := by
  unfold validQuery at hq
  cases hl : q.limit with
  | none => simp
  | some n =>
    rw [hl] at hq
    simp only [Bool.and_eq_true, decide_eq_true_eq] at hq
    simpa using hq.1.1.2.1

/-- Sorting never changes the number of records. -/
theorem serviceFindAll_length (s : ServiceState) (q : QueryProductDto) :
    (serviceFindAll s q).length = (applyFilters s.products q).length := by
  unfold serviceFindAll applySorting
  simp

/-- Projection equation: `totalItems` of the list response. -/
theorem controllerFindAll_totalItems (s : ServiceState) (q : QueryProductDto) :
    (controllerFindAll s q).pagination.totalItems =
      (applyFilters s.products q).length := by
  show (serviceFindAll s q).length = _
  exact serviceFindAll_length s q

/-- Projection equation: `totalPages` of the list response. -/
theorem controllerFindAll_totalPages (s : ServiceState) (q : QueryProductDto) :
    (controllerFindAll s q).pagination.totalPages =
      ((applyFilters s.products q).length + q.limit.getD 10 - 1) / (q.limit.getD 10) := by
  show ((serviceFindAll s q).length + q.limit.getD 10 - 1) / (q.limit.getD 10) = _
  rw [serviceFindAll_length s q]

/-- Projection equation: the data slice of the list response. -/
theorem controllerFindAll_data (s : ServiceState) (q : QueryProductDto) :
    (controllerFindAll s q).data =
      ((serviceFindAll s q).drop ((q.page.getD 1 - 1) * (q.limit.getD 10))).take
        ((q.page.getD 1 - 1) * (q.limit.getD 10) + q.limit.getD 10 -
          (q.page.getD 1 - 1) * (q.limit.getD 10)) := rfl

/-- C2: the `totalItems` metadata of the list response equals the number of
records passing all active filters, and depends only on the four filter
parameters (never on `sortBy`, `order`, `page` or `limit`). -/
theorem totalItems_counts_filtered_records (s : ServiceState)
    (q q' : QueryProductDto)
    (hcat : q'.category = q.category) (hmin : q'.minPrice = q.minPrice)
    (hmax : q'.maxPrice = q.maxPrice) (hsearch : q'.search = q.search) :
    (controllerFindAll s q).pagination.totalItems =
        (applyFilters s.products q).length ∧
      (controllerFindAll s q').pagination.totalItems =
        (controllerFindAll s q).pagination.totalItems := by
  have hlen : ∀ qq : QueryProductDto,
      (controllerFindAll s qq).pagination.totalItems =
        (applyFilters s.products qq).length :=
    fun qq => controllerFindAll_totalItems s qq
  have hfil : applyFilters s.products q' = applyFilters s.products q := by
    unfold applyFilters
    rw [hcat, hmin, hmax, hsearch]
  exact ⟨hlen q, by rw [hlen q', hlen q, hfil]⟩

/-- C2 witness: the default query against the seeded store versus the same
filters with different sort and pagination parameters. -/
theorem totalItems_counts_filtered_records_witness :
    (({ sortBy := some .price, order := some .ASC, page := some 2, limit := some 2 } :
        QueryProductDto).category = ({} : QueryProductDto).category) ∧
    ((controllerFindAll initState {}).pagination.totalItems =
        (applyFilters initState.products {}).length ∧
      (controllerFindAll initState
          { sortBy := some .price, order := some .ASC, page := some 2,
            limit := some 2 }).pagination.totalItems =
        (controllerFindAll initState {}).pagination.totalItems) :=
  ⟨rfl,
    totalItems_counts_filtered_records initState {}
      { sortBy := some .price, order := some .ASC, page := some 2, limit := some 2 }
      rfl rfl rfl rfl⟩

/-- C1 counterexample: on the seeded store (4 records, no filters), page 2
with limit 10 is above `totalPages = 1` while `totalItems = 4 > 0`, yet the
list operation does not fail: it succeeds (`success = true`) and returns an
empty data slice instead of an error. -/
theorem findAll_out_of_range_page_no_error_counterexample :
    0 < (controllerFindAll initState
        { page := some 2, limit := some 10 }).pagination.totalItems ∧
    (controllerFindAll initState
        { page := some 2, limit := some 10 }).pagination.totalPages < 2 ∧
    (controllerFindAll initState { page := some 2, limit := some 10 }).success = true ∧
    (controllerFindAll initState { page := some 2, limit := some 10 }).data = [] := by
  refine ⟨?_, ?_, rfl, ?_⟩
  · rw [controllerFindAll_totalItems]
    decide
  · rw [controllerFindAll_totalPages]
    decide
  · rw [controllerFindAll_data]
    have hle : (serviceFindAll initState { page := some 2, limit := some 10 }).length ≤
        (((some 2).getD 1 - 1) * ((some 10).getD 10)) := by
      rw [serviceFindAll_length]
      decide
    rw [List.drop_eq_nil_of_le hle, List.take_nil]

/-- A page slice starting at or past the end of the list is empty: used for
the out-of-range-page behavior of `controllerFindAll`. -/
theorem slice_past_end {α : Type} (l : List α) (page limit : Nat)
    (hlim : 1 ≤ limit) (h : (l.length + limit - 1) / limit < page) :
    (l.drop ((page - 1) * limit)).take
      ((page - 1) * limit + limit - (page - 1) * limit) = [] := by
  have hx : l.length ≤ (page - 1) * limit := by
    have h1 : limit * ((l.length + limit - 1) / limit) +
        (l.length + limit - 1) % limit = l.length + limit - 1 :=
      Nat.div_add_mod _ _
    have h2 : (l.length + limit - 1) % limit < limit := Nat.mod_lt _ (by omega)
    have h5 : (l.length + limit - 1) / limit ≤ page - 1 := by omega
    have h6 : limit * ((l.length + limit - 1) / limit) ≤ limit * (page - 1) :=
      Nat.mul_le_mul (le_refl limit) h5
    have h4 : l.length ≤ limit * ((l.length + limit - 1) / limit) := by
      generalize hm : limit * ((l.length + limit - 1) / limit) = m at h1 ⊢
      omega
    calc l.length ≤ limit * ((l.length + limit - 1) / limit) := h4
      _ ≤ limit * (page - 1) := h6
      _ = (page - 1) * limit := Nat.mul_comm _ _
  rw [List.drop_eq_nil_of_le hx, List.take_nil]

/-- C1 amended: for a validated query whose page is above `totalPages`
(pages below 1 cannot pass DTO validation), the list operation does not fail:
it returns a successful response whose data slice is empty, because the slice
bounds are simply clipped to the list length. No out-of-range error exists in
the operation. -/
theorem findAll_out_of_range_page_yields_empty_success (s : ServiceState)
    (q : QueryProductDto) (hq : validQuery q = true)
    (hoob : (controllerFindAll s q).pagination.totalPages < q.page.getD 1) :
    (controllerFindAll s q).success = true ∧ (controllerFindAll s q).data = [] := by
  refine ⟨rfl, ?_⟩
  have hdata : (controllerFindAll s q).data =
      ((serviceFindAll s q).drop ((q.page.getD 1 - 1) * (q.limit.getD 10))).take
        ((q.page.getD 1 - 1) * (q.limit.getD 10) + q.limit.getD 10 -
          (q.page.getD 1 - 1) * (q.limit.getD 10)) := rfl
  have htp : (controllerFindAll s q).pagination.totalPages =
      ((serviceFindAll s q).length + q.limit.getD 10 - 1) / (q.limit.getD 10) := rfl
  rw [htp] at hoob
  rw [hdata]
  exact slice_past_end (serviceFindAll s q) (q.page.getD 1) (q.limit.getD 10)
    (one_le_effLimit q hq) hoob

/-- C1 amended witness: the concrete out-of-range request of the
counterexample, discharged through the amended theorem. -/
theorem findAll_out_of_range_page_yields_empty_success_witness :
    (validQuery { page := some 2, limit := some 10 } = true) ∧
    ((controllerFindAll initState
        { page := some 2, limit := some 10 }).pagination.totalPages < 2) ∧
    ((controllerFindAll initState { page := some 2, limit := some 10 }).success = true ∧
      (controllerFindAll initState { page := some 2, limit := some 10 }).data = []) :=
  ⟨by decide, by rw [controllerFindAll_totalPages]; decide,
    findAll_out_of_range_page_yields_empty_success initState
      { page := some 2, limit := some 10 } (by decide)
      (by rw [controllerFindAll_totalPages]; decide)⟩

/-- Joining the `k`-sized chunks of a list reconstructs it, as soon as the
chunk count covers the whole list. -/
theorem chunks_join {α : Type} (k : Nat) :
    ∀ (n : Nat) (l : List α), l.length ≤ n * k →
      ((List.range n).map (fun i => (l.drop (i * k)).take k)).flatten = l := by
  intro n
  induction n with
  | zero =>
    intro l hl
    have : l = [] := List.length_eq_zero.mp (Nat.le_zero.mp (by simpa using hl))
    subst this
    simp
  | succ n ih =>
    intro l hl
    rw [List.range_succ_eq_map]
    simp only [List.map_cons, List.flatten_cons, List.map_map]
    have hmap : (List.range n).map ((fun i => (l.drop (i * k)).take k) ∘ Nat.succ) =
        (List.range n).map (fun i => (((l.drop k).drop (i * k)).take k)) := by
      apply List.map_congr_left
      intro i _
      simp only [Function.comp]
      rw [List.drop_drop]
      congr 2
      calc i.succ * k = i * k + k := Nat.succ_mul i k
        _ = k + i * k := Nat.add_comm _ _
    rw [hmap]
    have hlen : (l.drop k).length ≤ n * k := by
      rw [List.length_drop]
      have hnk : (n + 1) * k = n * k + k := Nat.succ_mul n k
      rw [hnk] at hl
      generalize n * k = m at hl ⊢
      omega
    rw [ih (l.drop k) hlen]
    simp [List.take_append_drop]

/-- `len ≤ ceil(len / k) * k` for positive `k`, with the ceiling computed as
`(len + k - 1) / k`. -/
theorem le_ceil_mul (len k : Nat) (hk : 1 ≤ k) :
    len ≤ ((len + k - 1) / k) * k := by
  have h1 : k * ((len + k - 1) / k) + (len + k - 1) % k = len + k - 1 :=
    Nat.div_add_mod _ _
  have h2 : (len + k - 1) % k < k := Nat.mod_lt _ (by omega)
  rw [Nat.mul_comm]
  generalize hm : k * ((len + k - 1) / k) = m at h1 ⊢
  omega

/-- C3: for a validated query, concatenating the data slices of pages 1
through `totalPages` (same filters, sort and limit) reconstructs the full
ordered filtered list exactly — every record exactly once, no gaps, no
overlaps; each slice is `drop ((page-1)*limit)` then `take limit`, clipped to
the list length. -/
theorem pagination_reconstructs_filtered_list (s : ServiceState)
    (q : QueryProductDto) (hq : validQuery q = true) :
    ((List.range ((controllerFindAll s q).pagination.totalPages)).map
        (fun i => (controllerFindAll s { q with page := some (i + 1) }).data)).flatten =
      serviceFindAll s q := by
  have hlim : 1 ≤ q.limit.getD 10 := one_le_effLimit q hq
  obtain ⟨pg, lim, cat, minp, maxp, sea, sb, ord⟩ := q
  have hdata : ∀ i : Nat,
      (controllerFindAll s ⟨some (i + 1), lim, cat, minp, maxp, sea, sb, ord⟩).data =
        ((serviceFindAll s ⟨pg, lim, cat, minp, maxp, sea, sb, ord⟩).drop
          (i * lim.getD 10)).take (lim.getD 10) := by
    intro i
    rw [controllerFindAll_data]
    have hsvc : serviceFindAll s ⟨some (i + 1), lim, cat, minp, maxp, sea, sb, ord⟩ =
        serviceFindAll s ⟨pg, lim, cat, minp, maxp, sea, sb, ord⟩ := rfl
    rw [hsvc]
    simp
  have htp : (controllerFindAll s ⟨pg, lim, cat, minp, maxp, sea, sb, ord⟩).pagination.totalPages =
      ((serviceFindAll s ⟨pg, lim, cat, minp, maxp, sea, sb, ord⟩).length +
        lim.getD 10 - 1) / (lim.getD 10) := by
    rw [controllerFindAll_totalPages, serviceFindAll_length]
  show ((List.range _).map
      (fun i => (controllerFindAll s ⟨some (i + 1), lim, cat, minp, maxp, sea, sb, ord⟩).data)).flatten = _
  rw [htp]
  have hrw : (fun i =>
      (controllerFindAll s ⟨some (i + 1), lim, cat, minp, maxp, sea, sb, ord⟩).data) =
      (fun i => ((serviceFindAll s ⟨pg, lim, cat, minp, maxp, sea, sb, ord⟩).drop
        (i * lim.getD 10)).take (lim.getD 10)) := funext hdata
  rw [hrw]
  exact chunks_join (lim.getD 10) _ _
    (le_ceil_mul (serviceFindAll s ⟨pg, lim, cat, minp, maxp, sea, sb, ord⟩).length
      (lim.getD 10) hlim)

/-- C3 witness: limit 2 on the seeded store gives two pages whose
concatenation is the full sorted list. -/
theorem pagination_reconstructs_filtered_list_witness :
    (validQuery { limit := some 2 } = true) ∧
    ((List.range ((controllerFindAll initState { limit := some 2 }).pagination.totalPages)).map
        (fun i => (controllerFindAll initState
          { ({ limit := some 2 } : QueryProductDto) with page := some (i + 1) }).data)).flatten =
      serviceFindAll initState { limit := some 2 } :=
  ⟨by decide,
    pagination_reconstructs_filtered_list initState { limit := some 2 } (by decide)⟩

/-- `updateFirst` never changes the sequence of ids in the store. -/
theorem updateFirst_map_id (id : Nat) (u : UpdateProductData) (now : Nat) :
    ∀ (l : List Product) (q : Product) (l' : List Product),
      updateFirst id u now l = some (q, l') →
      l'.map Product.id = l.map Product.id := by
  intro l
  induction l with
  | nil => intro q l' h; simp [updateFirst] at h
  | cons p rest ih =>
    intro q l' h
    by_cases hp : (p.id == id) = true
    · simp only [updateFirst, hp, if_pos, Option.some.injEq, Prod.mk.injEq] at h
      rw [← h.2]
      simp [mergeUpdate]
    · simp only [updateFirst] at h
      rw [if_neg hp] at h
      cases hrec : updateFirst id u now rest with
      | none => rw [hrec] at h; simp at h
      | some pr =>
        obtain ⟨q', rest'⟩ := pr
        rw [hrec] at h
        simp only [Option.some.injEq, Prod.mk.injEq] at h
        rw [← h.2]
        simp only [List.map_cons]
        rw [ih q' rest' hrec]

/-- `deleteFirst` removes one record: the remaining id sequence is a sublist
of the original one. -/
theorem deleteFirst_map_id_sublist (id : Nat) :
    ∀ (l : List Product) (q : Product) (l' : List Product),
      deleteFirst id l = some (q, l') →
      List.Sublist (l'.map Product.id) (l.map Product.id) := by
  intro l
  induction l with
  | nil => intro q l' h; simp [deleteFirst] at h
  | cons p rest ih =>
    intro q l' h
    by_cases hp : (p.id == id) = true
    · simp only [deleteFirst, hp, if_pos, Option.some.injEq, Prod.mk.injEq] at h
      rw [← h.2]
      exact List.sublist_cons_self p.id (List.map Product.id rest)
    · simp only [deleteFirst] at h
      rw [if_neg hp] at h
      cases hrec : deleteFirst id rest with
      | none => rw [hrec] at h; simp at h
      | some pr =>
        obtain ⟨q', rest'⟩ := pr
        rw [hrec] at h
        simp only [Option.some.injEq, Prod.mk.injEq] at h
        rw [← h.2]
        exact List.Sublist.cons₂ p.id (ih q' rest' hrec)

/-- Every id bound and distinctness survive an arbitrary id-sequence
preserving replacement of the product list. -/
theorem goodState_of_map_id_eq {s : ServiceState} {ps : List Product}
    (h : goodState s) (heq : ps.map Product.id = s.products.map Product.id) :
    goodState { s with products := ps } := by
  constructor
  · intro p hp
    have : p.id ∈ ps.map Product.id := List.mem_map_of_mem Product.id hp
    rw [heq] at this
    obtain ⟨p', hp', hid⟩ := List.mem_map.mp this
    simpa [← hid] using h.1 p' hp'
  · rw [heq]; exact h.2

/-- `applyOp` on a create request. -/
theorem applyOp_create (s : ServiceState) (d : CreateProductData) (now : Nat) :
    applyOp s (.create d now) = (serviceCreate s d now).2 := rfl

/-- `applyOp` on an update request. -/
theorem applyOp_update (s : ServiceState) (id : Nat) (u : UpdateProductData)
    (now : Nat) : applyOp s (.update id u now) = (serviceUpdate s id u now).2 := rfl

/-- `applyOp` on a delete request. -/
theorem applyOp_delete (s : ServiceState) (id : Nat) :
    applyOp s (.delete id) = (serviceDelete s id).2 := rfl

/-- Each mutation request preserves the store invariant and never decreases
the id counter. -/
theorem applyOp_good (s : ServiceState) (op : Op) (h : goodState s) :
    goodState (applyOp s op) ∧ s.nextId ≤ (applyOp s op).nextId := by
  cases op with
  | create d now =>
    rw [applyOp_create]
    refine ⟨⟨?_, ?_⟩, ?_⟩
    · intro p hp
      show p.id < s.nextId + 1
      rcases List.mem_append.mp hp with hmem | hmem
      · exact Nat.lt_succ_of_lt (h.1 p hmem)
      · simp only [List.mem_singleton] at hmem
        subst hmem
        exact Nat.lt_succ_self _
    · show ((s.products ++ [_]).map Product.id).Nodup
      rw [List.map_append]
      apply List.Nodup.append h.2 (List.nodup_singleton _)
      intro a ha hb
      simp only [List.map_cons, List.map_nil, List.mem_singleton] at hb
      obtain ⟨p', hp', hid⟩ := List.mem_map.mp ha
      have := h.1 p' hp'
      omega
    · exact Nat.le_succ _
  | update id u now =>
    rw [applyOp_update]
    unfold serviceUpdate
    cases hu : updateFirst id u now s.products with
    | none => exact ⟨h, le_refl _⟩
    | some pr =>
      obtain ⟨q, ps⟩ := pr
      exact ⟨goodState_of_map_id_eq h (updateFirst_map_id id u now s.products q ps hu),
        le_refl _⟩
  | delete id =>
    rw [applyOp_delete]
    unfold serviceDelete
    cases hd : deleteFirst id s.products with
    | none => exact ⟨h, le_refl _⟩
    | some pr =>
      obtain ⟨q, ps⟩ := pr
      have hsub := deleteFirst_map_id_sublist id s.products q ps hd
      refine ⟨⟨?_, hsub.nodup h.2⟩, le_refl _⟩
      intro p hp
      have h1 : p.id ∈ ps.map Product.id := List.mem_map_of_mem Product.id hp
      have h2 : p.id ∈ s.products.map Product.id := hsub.mem h1
      obtain ⟨p', hp', hid⟩ := List.mem_map.mp h2
      simpa [← hid] using h.1 p' hp'

/-- Runs preserve the invariant and the counter is monotone. -/
theorem runOps_good (ops : List Op) :
    ∀ s : ServiceState, goodState s →
      goodState (runOps s ops) ∧ s.nextId ≤ (runOps s ops).nextId := by
  induction ops with
  | nil => intro s h; exact ⟨h, le_refl _⟩
  | cons op ops ih =>
    intro s h
    have h1 := applyOp_good s op h
    have h2 := ih (applyOp s op) h1.1
    exact ⟨h2.1, le_trans h1.2 h2.2⟩

/-- The ids handed out by the creates of a run are strictly increasing, and
all of them are at least the starting counter value. -/
theorem createdIds_increasing (ops : List Op) :
    ∀ s : ServiceState, goodState s →
      (createdIds s ops).Pairwise (· < ·) ∧
        ∀ i ∈ createdIds s ops, s.nextId ≤ i := by
  induction ops with
  | nil => intro s _; exact ⟨List.Pairwise.nil, by intro i hi; simp [createdIds] at hi⟩
  | cons op ops ih =>
    intro s h
    have hgood := (applyOp_good s op h).1
    have hmono := (applyOp_good s op h).2
    have htail := ih (applyOp s op) hgood
    cases op with
    | create d now =>
      have hnext : (applyOp s (.create d now)).nextId = s.nextId + 1 := rfl
      constructor
      · refine List.Pairwise.cons ?_ htail.1
        intro i hi
        have := htail.2 i hi
        rw [hnext] at this
        show s.nextId < i
        omega
      · intro i hi
        rcases List.mem_cons.mp hi with hh | hh
        · subst hh; exact le_refl _
        · have := htail.2 i hh
          rw [hnext] at this
          omega
    | update id u now =>
      refine ⟨htail.1, ?_⟩
      intro i hi
      exact le_trans hmono (htail.2 i hi)
    | delete id =>
      refine ⟨htail.1, ?_⟩
      intro i hi
      exact le_trans hmono (htail.2 i hi)

/-- C8: across every sequence of create/update/delete requests from the
seeded store, the ids handed out by `create` are strictly increasing (each
one greater than every id assigned before, and never below the initial
counter 5, hence never colliding with a seeded or deleted id), and the ids
present in the store stay pairwise distinct. -/
theorem create_ids_strictly_increasing_never_reused (ops : List Op) :
    (createdIds initState ops).Pairwise (· < ·) ∧
      (∀ i ∈ createdIds initState ops, initState.nextId ≤ i) ∧
      ((runOps initState ops).products.map Product.id).Nodup := by
  have hinit : goodState initState := by
    constructor
    · intro p hp
      fin_cases hp <;> decide
    · decide
  have h1 := createdIds_increasing ops initState hinit
  have h2 := runOps_good ops initState hinit
  exact ⟨h1.1, h1.2, h2.1.2⟩

/-- C9 counterexample: under reference semantics, `findById(1)` on the
seeded store returns a reference to the stored object itself. Assigning a
field through that reference changes the store as observed by later reads:
the returned value is not a copy or immutable view. -/
theorem reads_return_store_aliases_counterexample :
    heapFindById initHeap 1 = some 0 ∧
    (derefD (heapWrite initHeap 0 { prod1 with name := "HACKED" }) 0).name = "HACKED" ∧
    heapFindById (heapWrite initHeap 0 { prod1 with name := "HACKED" }) 1 = some 0 ∧
    storeView (heapWrite initHeap 0 { prod1 with name := "HACKED" }) ≠ storeView initHeap := by
  refine ⟨rfl, rfl, rfl, ?_⟩
  decide

/-- C9 amended: read operations return references that alias store state
(the enclosing array of `findAll` is fresh, but the records are shared): the
reference handed out by `findById` is one of the references held by the store, and
a caller-side write through it is visible in the store contents seen by
every later operation. -/
theorem reads_return_store_aliases (h : HeapState) (id r : Nat)
    (hwf : heapWF h) (hr : heapFindById h id = some r) (q0 : Product) :
    r ∈ h.storeRefs ∧
      (heapWrite h r q0).storeRefs = h.storeRefs ∧
      derefD (heapWrite h r q0) r = q0 ∧
      q0 ∈ storeView (heapWrite h r q0) := by
  have hmem : r ∈ h.storeRefs := List.mem_of_find?_eq_some hr
  have hlt : r < h.cells.length := hwf r hmem
  have hderef : derefD (heapWrite h r q0) r = q0 := by
    unfold derefD heapWrite
    simp only [List.getD_eq_getElem?_getD]
    rw [List.getElem?_set_self (by simpa using hlt)]
    rfl
  refine ⟨hmem, rfl, hderef, ?_⟩
  exact List.mem_map.mpr ⟨r, hmem, hderef⟩

/-- C9 amended witness: mutate the object returned for id 1 in the seeded
heap. -/
theorem reads_return_store_aliases_witness :
    (∀ r ∈ initHeap.storeRefs, r < initHeap.cells.length) ∧
    (0 ∈ initHeap.storeRefs ∧
      (heapWrite initHeap 0 { prod1 with name := "HACKED" }).storeRefs =
        initHeap.storeRefs ∧
      derefD (heapWrite initHeap 0 { prod1 with name := "HACKED" }) 0 =
        { prod1 with name := "HACKED" } ∧
      ({ prod1 with name := "HACKED" } : Product) ∈
        storeView (heapWrite initHeap 0 { prod1 with name := "HACKED" })) :=
  ⟨by decide,
    reads_return_store_aliases initHeap 1 0 (fun r hr => by fin_cases hr <;> decide) rfl
      { prod1 with name := "HACKED" }⟩

/-- `keyLe` is transitive. -/
theorem keyLe_trans (sb : SortBy) : ∀ a b c : Product,
    keyLe sb a b = true → keyLe sb b c = true → keyLe sb a c = true := by
  intro a b c hab hbc
  cases sb <;>
    (simp only [keyLe, keyLt, Bool.not_eq_true', decide_eq_false_iff_not,
      not_lt] at hab hbc ⊢) <;>
    exact le_trans hab hbc

/-- `keyLe` is total. -/
theorem keyLe_total (sb : SortBy) : ∀ a b : Product,
    (keyLe sb a b || keyLe sb b a) = true := by
  intro a b
  cases sb <;>
    (simp only [keyLe, keyLt, Bool.or_eq_true, Bool.not_eq_true',
      decide_eq_false_iff_not, not_lt]) <;>
    exact le_total _ _

/-- `keyEq` is symmetric. -/
theorem keyEq_comm (sb : SortBy) (a b : Product) :
    keyEq sb a b = keyEq sb b a := by
  unfold keyEq
  rw [Bool.and_comm]

/-- The ASC comparator accepts (`≤ 0`) exactly when the first key is not
greater. -/
theorem comparator_asc (sb : SortBy) (a b : Product) :
    decide (jsCompare sb .ASC a b ≤ 0) = keyLe sb a b := by
  unfold jsCompare keyLe
  by_cases h1 : keyLt sb b a = true
  · simp [h1]
  · by_cases h2 : keyLt sb a b = true
    · simp [h1, h2]
    · simp [h1, h2]

/-- The DESC comparator accepts (`≤ 0`) exactly when the second key is not
greater. -/
theorem comparator_desc (sb : SortBy) (a b : Product) :
    decide (jsCompare sb .DESC a b ≤ 0) = keyLe sb b a := by
  unfold jsCompare keyLe
  by_cases h1 : keyLt sb a b = true
  · simp [h1]
  · by_cases h2 : keyLt sb b a = true
    · simp [h1, h2]
    · simp [h1, h2]

/-- `applySorting` with explicit ASC order is a stable merge sort by
`keyLe`. -/
theorem applySorting_asc (ps : List Product) (sb : SortBy) :
    applySorting ps { sortBy := some sb, order := some .ASC } =
      ps.mergeSort (fun a b => keyLe sb a b) := by
  unfold applySorting
  simp only [Option.getD_some]
  congr 1
  funext a b
  exact comparator_asc sb a b

/-- `applySorting` with explicit DESC order is a stable merge sort by the
flipped `keyLe`. -/
theorem applySorting_desc (ps : List Product) (sb : SortBy) :
    applySorting ps { sortBy := some sb, order := some .DESC } =
      ps.mergeSort (fun a b => keyLe sb b a) := by
  unfold applySorting
  simp only [Option.getD_some]
  congr 1
  funext a b
  exact comparator_desc sb a b

/-- Stability of the modelled sort, filter form: the subsequence of records
satisfying a predicate that forces mutual `le` (e.g. "key equals `k`") is
untouched by sorting. -/
theorem mergeSort_filter_stable (ps : List Product)
    (le : Product → Product → Bool)
    (htrans : ∀ a b c : Product, le a b = true → le b c = true → le a c = true)
    (htotal : ∀ a b : Product, (le a b || le b a) = true)
    (pred : Product → Bool)
    (hpred : ∀ a b : Product, pred a = true → pred b = true → le a b = true) :
    (ps.mergeSort le).filter pred = ps.filter pred := by
  have hsub0 : List.Sublist (ps.filter pred) ps := List.filter_sublist ps
  have hpair : (ps.filter pred).Pairwise (fun a b => le a b = true) := by
    apply List.pairwise_of_forall_mem_list
    intro a ha b hb
    exact hpred a b (List.mem_filter.mp ha).2 (List.mem_filter.mp hb).2
  have hsub : List.Sublist (ps.filter pred) (ps.mergeSort le) :=
    List.sublist_mergeSort htrans htotal hpair hsub0
  have hsub2 : List.Sublist (ps.filter pred) ((ps.mergeSort le).filter pred) := by
    have h1 := List.Sublist.filter pred hsub
    rwa [List.filter_filter, (by funext a; rw [Bool.and_self] :
      (fun a => pred a && pred a) = pred)] at h1
  have hperm : ((ps.mergeSort le).filter pred).Perm (ps.filter pred) :=
    (List.mergeSort_perm ps le).filter pred
  exact (hsub2.eq_of_length hperm.length_eq.symm).symm

/-- A permutation between two lists sorted by the same relation, antisymmetric
on their members, is the identity. -/
theorem eq_of_perm_of_pairwise_antisymm {α : Type} {r : α → α → Prop} :
    ∀ (l₁ l₂ : List α), l₁.Perm l₂ → l₁.Pairwise r → l₂.Pairwise r →
      (∀ a ∈ l₁, ∀ b ∈ l₁, r a b → r b a → a = b) → l₁ = l₂ := by
  intro l₁
  induction l₁ with
  | nil =>
    intro l₂ hp _ _ _
    exact (hp.symm.eq_nil).symm
  | cons a t ih =>
    intro l₂ hp h1 h2 hanti
    cases l₂ with
    | nil => exact absurd hp.eq_nil (by simp)
    | cons b t₂ =>
      by_cases hab : a = b
      · subst hab
        congr 1
        exact ih t₂ hp.cons_inv (List.pairwise_cons.mp h1).2
          (List.pairwise_cons.mp h2).2
          (fun x hx y hy => hanti x (List.mem_cons_of_mem a hx)
            y (List.mem_cons_of_mem a hy))
      · have hb1 : b ∈ a :: t := hp.symm.subset (List.mem_cons_self b t₂)
        have hbt : b ∈ t := by
          rcases List.mem_cons.mp hb1 with h | h
          · exact absurd h.symm hab
          · exact h
        have ha2 : a ∈ b :: t₂ := hp.subset (List.mem_cons_self a t)
        have hat2 : a ∈ t₂ := by
          rcases List.mem_cons.mp ha2 with h | h
          · exact absurd h hab
          · exact h
        have hrab : r a b := (List.pairwise_cons.mp h1).1 b hbt
        have hrba : r b a := (List.pairwise_cons.mp h2).1 a hat2
        exact absurd (hanti a (List.mem_cons_self a t) b hb1 hrab hrba) hab

/-- C4: the sort is a stable total preorder on records: (1) re-sorting its
own output with the same key and order changes nothing; (2) records with
equal sort keys keep their relative order from the original input, under both
ASC and DESC; (3) when keys are pairwise distinct, switching ASC to DESC
exactly reverses the output. -/
theorem sorting_stable_idempotent_order_reversing (ps : List Product) (sb : SortBy) :
    (∀ ord : SortOrder,
      applySorting (applySorting ps { sortBy := some sb, order := some ord })
          { sortBy := some sb, order := some ord } =
        applySorting ps { sortBy := some sb, order := some ord }) ∧
    (∀ (ord : SortOrder) (z : Product),
      (applySorting ps { sortBy := some sb, order := some ord }).filter
          (fun p => keyEq sb p z) =
        ps.filter (fun p => keyEq sb p z)) ∧
    (ps.Pairwise (fun a b => keyEq sb a b = false) →
      applySorting ps { sortBy := some sb, order := some .DESC } =
        (applySorting ps { sortBy := some sb, order := some .ASC }).reverse) := by
  refine ⟨?_, ?_, ?_⟩
  · intro ord
    cases ord with
    | ASC =>
      rw [applySorting_asc, applySorting_asc]
      exact List.mergeSort_of_sorted
        (List.sorted_mergeSort (fun a b c => keyLe_trans sb a b c)
          (fun a b => keyLe_total sb a b) ps)
    | DESC =>
      rw [applySorting_desc, applySorting_desc]
      exact List.mergeSort_of_sorted
        (List.sorted_mergeSort (fun a b c h1 h2 => keyLe_trans sb c b a h2 h1)
          (fun a b => keyLe_total sb b a) ps)
  · intro ord z
    cases ord with
    | ASC =>
      rw [applySorting_asc]
      apply mergeSort_filter_stable ps _ (fun a b c => keyLe_trans sb a b c)
        (fun a b => keyLe_total sb a b)
      intro a b ha hb
      have ha2 := Bool.and_eq_true_iff.mp ha
      have hb2 := Bool.and_eq_true_iff.mp hb
      exact keyLe_trans sb a z b ha2.1 hb2.2
    | DESC =>
      rw [applySorting_desc]
      apply mergeSort_filter_stable ps _ (fun a b c h1 h2 => keyLe_trans sb c b a h2 h1)
        (fun a b => keyLe_total sb b a)
      intro a b ha hb
      have ha2 := Bool.and_eq_true_iff.mp ha
      have hb2 := Bool.and_eq_true_iff.mp hb
      exact keyLe_trans sb b z a hb2.1 ha2.2
  · intro hdist
    rw [applySorting_desc, applySorting_asc]
    have hperm : (ps.mergeSort (fun a b => keyLe sb b a)).Perm
        ((ps.mergeSort (fun a b => keyLe sb a b)).reverse) :=
      (List.mergeSort_perm ps _).trans
        ((List.mergeSort_perm ps _).symm.trans (List.reverse_perm _).symm)
    have hp1 : (ps.mergeSort (fun a b => keyLe sb b a)).Pairwise
        (fun a b => keyLe sb b a = true) :=
      List.sorted_mergeSort (fun a b c h1 h2 => keyLe_trans sb c b a h2 h1)
        (fun a b => keyLe_total sb b a) ps
    have hp2 : ((ps.mergeSort (fun a b => keyLe sb a b)).reverse).Pairwise
        (fun a b => keyLe sb b a = true) := by
      apply List.pairwise_reverse.mpr
      exact List.sorted_mergeSort (fun a b c => keyLe_trans sb a b c)
        (fun a b => keyLe_total sb a b) ps
    have hsymm : Symmetric (fun a b : Product => keyEq sb a b = false) := by
      intro x y h
      rw [keyEq_comm]
      exact h
    apply @eq_of_perm_of_pairwise_antisymm Product (fun a b => keyLe sb b a = true)
      _ _ hperm hp1 hp2
    intro a ha b hb h1 h2
    by_contra hne
    have hamem : a ∈ ps := List.mem_mergeSort.mp ha
    have hbmem : b ∈ ps := List.mem_mergeSort.mp hb
    have hkeq : keyEq sb a b = false := hdist.forall hsymm hamem hbmem hne
    unfold keyEq at hkeq
    rw [h1, h2] at hkeq
    simp at hkeq

/-- C4 witness: two seeded records with distinct prices, sorted by price. -/
theorem sorting_stable_idempotent_order_reversing_witness :
    ([prod2, prod1].Pairwise (fun a b => keyEq .price a b = false)) ∧
    (applySorting [prod2, prod1] { sortBy := some .price, order := some .DESC } =
      (applySorting [prod2, prod1]
        { sortBy := some .price, order := some .ASC }).reverse) :=
  ⟨by decide,
    (sorting_stable_idempotent_order_reversing [prod2, prod1] .price).2.2 (by decide)⟩

end ProductCrud
